import Mathlib

/-!
# Verification of the batch_top resource-sampling and ranking engine

This file gives a shallow embedding, in Lean 4, of the core computations of
`batch_top.c`: the per-task snapshot model (`struct task_usage`), the
per-process stat-file unit conversions (`read_stat_file`), the task
enumeration bound (`get_task_usages` together with `est_num_tasks`), the
aggregate CPU-load ratio (`read_cpuload`), the cpuset memory-pressure
fallback (`read_mempres`) and the load predicate (`system_is_loaded`), the
per-disk time-in-queue rate (`get_disks_monitored`), the pid join, metric
computation and top-N threshold ranking of `show_hogs`, and the command-line
fetch (`get_cmdline`).

Modelling conventions:
* C unsigned 32-bit / 64-bit arithmetic is modelled on `ℕ` with explicit
  `% 2 ^ 32` / `% 2 ^ 64` at the operations where the C types truncate.
* C `double` values (`val_t`, load ratios) are modelled as exact rationals
  `ℚ`; a C conversion of a non-negative `double` to an unsigned integer
  truncates toward zero and is modelled with `⌊·⌋₊`.
* File reads are modelled by passing the value that was read (or `Option`
  when the surrounding code checks for failure) as an argument.
-/

namespace BatchTop

/-- `struct task_usage` of batch_top.c: one record per process per snapshot.
`cmd` is the command name, `pid` the process id, `cpumsecs` the cumulative
CPU milliseconds (user+system, self+reaped children), `rssmram` the resident
set size in 1/1000ths of total RAM, and `diskwait` the cumulative block-I/O
delay in milliseconds. -/
structure TaskUsage where
  cmd : String
  pid : ℕ
  cpumsecs : ℕ
  rssmram : ℕ
  diskwait : ℕ
deriving DecidableEq

/-- The rss conversion of `read_stat_file` (batch_top.c lines 677-683):
`rsskbytes = rsspages * pgsz; rssmram = 1000 * rsskbytes; rssmram /= ramsz`,
all in `uint64_t` arithmetic (hence the `% 2 ^ 64`), multiplying before the
single integer division. -/
def read_stat_rssmram (rsspages pgsz ramsz : ℕ) : ℕ :=
  let rsskbytes := rsspages * pgsz % 2 ^ 64
  let rssmram := 1000 * rsskbytes % 2 ^ 64
  rssmram / ramsz

/-- The enumeration loop of `get_task_usages` (batch_top.c lines 709-744).
`nt` is the estimate `est_num_tasks()` (the link count of /proc) used to size
the result array.  Each directory entry is modelled as `some tu` when it is a
numeric entry whose stat file parsed successfully into the record `tu`, and
`none` when it is skipped (non-numeric name, or the process exited between
enumeration and read; the fatal parse-failure path aborts the process and
yields no snapshot at all, so it does not appear here).  The loop index `i`
counts the records stored so far and the loop stops as soon as `i` reaches
`nt` (the C loop condition is `ent != NULL && i < nt`). -/
def get_task_usages_loop (nt : ℕ) : ℕ → List (Option TaskUsage) → List TaskUsage
  | _, [] => []
  | i, e :: rest =>
    if i < nt then
      match e with
      | some tup => tup :: get_task_usages_loop nt (i + 1) rest
      | none => get_task_usages_loop nt i rest
    else []

/-- `get_task_usages()` of batch_top.c: run the enumeration loop starting at
index 0 over the stream of /proc directory entries. -/
def get_task_usages (nt : ℕ) (entries : List (Option TaskUsage)) : List TaskUsage :=
  get_task_usages_loop nt 0 entries

/-- `read_cpuload()` of batch_top.c (lines 902-933), as a function of the
previous tick counters (the globals `prev_cpu_active`, `prev_cpu_total`,
both zero-initialised) and the counters just read by
`get_cumulative_cpu_stats` (`active`, `total`).  Returns the load ratio
together with the updated globals; the three anomaly branches return 0
without updating the globals. -/
def read_cpuload (prev cur : ℕ × ℕ) : ℚ × (ℕ × ℕ) :=
  if cur.1 < prev.1 then (0, prev)
  else if cur.2 < prev.2 then (0, prev)
  else if cur.2 = 0 then (0, prev)
  else
    let delta_active := cur.1 - prev.1
    let delta_total := cur.2 - prev.2
    let delta_total := if delta_total = 0 then 1 else delta_total
    ((delta_active : ℚ) / (delta_total : ℚ), cur)

/-- `read_mempres()` of batch_top.c (lines 1161-1178) as a function of the
configured threshold `val_u` and of the result of the one-time cpuset
discovery (`memory_pressure_fd()`): `none` models `cmp_fd < 0` (no cpuset
mount found, or no `memory_pressure_enabled` /
`cpuset.memory_pressure_enabled` file containing "1", in which case the C
code prints its one-time "Note: Cpuset not mounted or memory pressure not
enabled" and returns 1), `some v` models a successful read of value `v` from
the cached memory-pressure file.  When `val_u == 0` the probe is skipped
entirely and 0 is returned. -/
def read_mempres (val_u : ℤ) (cmp : Option ℤ) : ℤ :=
  if val_u = 0 then 0
  else
    match cmp with
    | none => 1
    | some v => v

/-- `system_is_loaded()` of batch_top.c (lines 1711-1715):
`lavg > val_p || 100.*cpu_load > val_c || 100.*mem_load > val_m ||
mem_pres > val_u`. -/
def system_is_loaded (lavg cpu_load mem_load : ℚ) (mem_pres : ℤ)
    (val_p val_c val_m : ℚ) (val_u : ℤ) : Bool :=
  decide (val_p < lavg) || decide (val_c < 100 * cpu_load) ||
    decide (val_m < 100 * mem_load) || decide (val_u < mem_pres)

/-- The per-disk delta of `get_disks_monitored` (batch_top.c line 1489):
`delta_usage = cur_time_in_queue - dsp->prev_time_in_queue` in `uint32_t`
arithmetic, i.e. the difference modulo `2 ^ 32`. -/
def get_disks_delta_usage (prev cur : ℕ) : ℕ :=
  (cur % 2 ^ 32 + (2 ^ 32 - prev % 2 ^ 32)) % 2 ^ 32

/-- The per-disk rate of `get_disks_monitored` (batch_top.c lines 1489-1493):
`delta_time = now - prev_now; if (delta_time < 1) delta_time = 1;
mdsk = delta_usage / (uint32_t) delta_time`.  `delta_time` is a signed
`time_t` difference, cast to `uint32_t` for the division. -/
def get_disks_mdsk (prev cur : ℕ) (delta_time : ℤ) : ℕ :=
  get_disks_delta_usage prev cur /
    ((if delta_time < 1 then 1 else delta_time).toNat % 2 ^ 32)

/-- The `<unknown>` placeholder of `get_cmdline` (batch_top.c lines
1305-1308): `sprintf(cmdlinebuf, "%*s", szcmdlinebuf, "<unknown>")`
right-justifies the 9-character string `<unknown>` in a field of width
`szcmdlinebuf` (padding only when the width exceeds 9), after which
`cmdlinebuf[szcmdlinebuf-1] = '\0'` truncates the buffer to
`szcmdlinebuf - 1` characters. -/
def get_cmdline_unknown (szcmdlinebuf : ℕ) : List Char :=
  (List.replicate (szcmdlinebuf - 9) ' ' ++ "<unknown>".toList).take
    (szcmdlinebuf - 1)

/-- `get_cmdline()` of batch_top.c (lines 1297-1328), as a function of the
outcome of opening and reading `/proc/<pid>/cmdline`: `none` models a failed
`open` (the placeholder path), `some bytes` models a successful open whose
`read` returned the `cnt = bytes.length` bytes `bytes` (`cnt` can be 0 for a
zombie or kernel task).  The C loop replaces the embedded NUL separators at
positions `0 .. cnt-2` by spaces and then NUL-terminates the buffer at
position `cnt-1`, so the displayed string is the first `cnt-1` bytes with
NULs turned into spaces — the empty string when `cnt = 0`. -/
def get_cmdline (szcmdlinebuf : ℕ) (openResult : Option (List Char)) :
    List Char :=
  match openResult with
  | none => get_cmdline_unknown szcmdlinebuf
  | some bytes => bytes.dropLast.map fun ch => if ch = Char.ofNat 0 then ' ' else ch

/-- The out-of-order test at the top of the join loop of `show_hogs`
(batch_top.c lines 1532-1539): `j > 0 && PID(latest, j-1) > PID(latest, j)`.
`prevj` is `some q` when the walk has already passed a latest-snapshot entry
(`j > 0`) whose pid was `q`, and `none` at `j = 0`. -/
def out_of_order (prevj : Option ℕ) (l : TaskUsage) : Bool :=
  match prevj with
  | some q => decide (l.pid < q)
  | none => false

/-- The join loop of `show_hogs` (batch_top.c lines 1529-1551) walking
`prior` (index `i`) and `latest` (index `j`) in lock-step: on each visit of a
latest entry `l` it first performs the out-of-order check against the
previously visited latest entry, then advances `i` past all prior entries
with smaller pid (the repeated `i++` arm, during which the check re-reads the
same unchanged pair), emits a joined pair on pid equality, and otherwise
advances `j`.  The loop stops, successfully, as soon as either snapshot is
exhausted (`while (i < ni && j < nj)`); `exit(9)` with its diagnostic is
modelled as `Except.error`. -/
def joinGo : Option ℕ → List TaskUsage → List TaskUsage →
    Except String (List (TaskUsage × TaskUsage))
  | _, _, [] => .ok []
  | _, [], _ :: _ => .ok []
  | prevj, p0 :: ps0, l :: ls =>
    if out_of_order prevj l then .error "/proc pids out of order - fail"
    else
      match (p0 :: ps0).dropWhile (fun x => decide (x.pid < l.pid)) with
      | [] => .ok []
      | p :: ps =>
        if p.pid = l.pid then
          (joinGo (some l.pid) ps ls).map fun rest => (p, l) :: rest
        else joinGo (some l.pid) (p :: ps) ls

/-- The same join walk without the out-of-order check: the pure merge-join
on pid that the loop computes whenever the check never fires. -/
def joinOk : List TaskUsage → List TaskUsage → List (TaskUsage × TaskUsage)
  | _, [] => []
  | prior, l :: ls =>
    match prior.dropWhile (fun x => decide (x.pid < l.pid)) with
    | [] => []
    | p :: ps =>
      if p.pid = l.pid then (p, l) :: joinOk ps ls else joinOk (p :: ps) ls

/-- `show_hogs` entry into the join: the walk starts with `i = j = 0`, i.e.
with no previously visited latest entry. -/
def show_hogs_join (prior latest : List TaskUsage) :
    Except String (List (TaskUsage × TaskUsage)) :=
  joinGo none prior latest

/-- The per-task CPU rate set by the metrics loop of `show_hogs`
(batch_top.c lines 1553-1569):
`jp->cpumsecs = (latest_cpumsecs - prior_cpumsecs) / val_t;
jp->cpumsecs /= ncpus;`.  The subtraction is `uint64_t` (modulo `2 ^ 64`),
the division is by the `double` `val_t` (the configured inner-loop interval,
modelled as an exact rational) with the quotient truncated into the
`unsigned` field, and the result is then integer-divided by `ncpus`. -/
def show_hogs_cpumsecs (prior_cpumsecs latest_cpumsecs : ℕ) (val_t : ℚ)
    (ncpus : ℕ) : ℕ :=
  let delta : ℕ := (latest_cpumsecs + (2 ^ 64 - prior_cpumsecs % 2 ^ 64)) % 2 ^ 64
  ⌊(delta : ℚ) / val_t⌋₊ / ncpus

/-- The per-task disk-wait rate set by the metrics loop of `show_hogs`
(batch_top.c line 1567): `jp->diskwait = (latest_diskwait - prior_diskwait)
/ val_t;` with the same `uint64_t` subtraction and division by the `double`
`val_t`. -/
def show_hogs_diskwait (prior_diskwait latest_diskwait : ℕ) (val_t : ℚ) : ℕ :=
  let delta : ℕ := (latest_diskwait + (2 ^ 64 - prior_diskwait % 2 ^ 64)) % 2 ^ 64
  ⌊(delta : ℚ) / val_t⌋₊

/-- `join_on_pid_t` of batch_top.c: one entry of the joined array.  The C
struct holds the index pair `(i, j)` into the two snapshots; the pid of the
joined task stands in for that pair here.  `showme` is the display mark. -/
structure JoinOnPid where
  pid : ℕ
  cpumsecs : ℕ
  rssmrams : ℕ
  diskwait : ℕ
  showme : Bool
deriving DecidableEq

/-- `jp->showme = 1` for one entry. -/
def set_showme (j : JoinOnPid) : JoinOnPid :=
  ⟨j.pid, j.cpumsecs, j.rssmrams, j.diskwait, true⟩

/-- The metrics loop of `show_hogs` (batch_top.c lines 1553-1569) over the
joined pairs: rates from the cumulative-millisecond deltas, the memory gauge
taken from the latest record (`jp->rssmrams = RAM(latest, jp->j)`, not a
delta), and `showme` cleared. -/
def show_hogs_metrics (val_t : ℚ) (ncpus : ℕ)
    (pairs : List (TaskUsage × TaskUsage)) : List JoinOnPid :=
  pairs.map fun pr =>
    ⟨pr.2.pid, show_hogs_cpumsecs pr.1.cpumsecs pr.2.cpumsecs val_t ncpus,
      pr.2.rssmram, show_hogs_diskwait pr.1.diskwait pr.2.diskwait val_t,
      false⟩

/-- One `qsort` call of `show_hogs`: sort the whole joined array descending
by the metric of the dimension at hand (`cpumsecs_cmp`, `rssmrams_cmp` or
`diskwait_cmp`, each comparing `jp2->field - jp1->field`).  `qsort` is not
stable and ties are broken arbitrarily; insertion sort realises one valid
outcome. -/
def hog_sort (metric : JoinOnPid → ℕ) (l : List JoinOnPid) : List JoinOnPid :=
  List.insertionSort (fun a b => metric b ≤ metric a) l

/-- One marking pass of `show_hogs` (batch_top.c lines 1586-1612): sort the
joined array by the dimension metric, then walk the first
`min val_n (length)` entries (`jpmax = joinp + min(val_n, jpend - joinp)`)
and set `showme` on every one whose metric meets or exceeds the dimension
threshold; entries past `jpmax` are left untouched. -/
def hog_mark (metric : JoinOnPid → ℕ) (threshold val_n : ℕ)
    (l : List JoinOnPid) : List JoinOnPid :=
  let s := hog_sort metric l
  (s.take val_n).map (fun j => if threshold ≤ metric j then set_showme j else j)
    ++ s.drop val_n

/-- The selection phase of `show_hogs` (batch_top.c lines 1575-1612): one
marking pass per enabled dimension, in source order memory (`flag_M`,
threshold `val_r`), block-I/O disk-wait (`flag_B`, threshold `val_b`), CPU
last (`flag_C`, threshold `val_q`), marks accumulating across passes. -/
def show_hogs_select (flag_M flag_B flag_C : Bool) (val_r val_b val_q val_n : ℕ)
    (l : List JoinOnPid) : List JoinOnPid :=
  let l1 := if flag_M then hog_mark (fun j => j.rssmrams) val_r val_n l else l
  let l2 := if flag_B then hog_mark (fun j => j.diskwait) val_b val_n l1 else l1
  if flag_C then hog_mark (fun j => j.cpumsecs) val_q val_n l2 else l2

/-! ## Helper lemmas -/

/-- The stored record count of `get_task_usages_loop` is the successful
parses, truncated to the remaining capacity `nt - i`. -/
lemma get_task_usages_loop_eq (nt : ℕ) :
    ∀ (entries : List (Option TaskUsage)) (i : ℕ),
      get_task_usages_loop nt i entries = entries.reduceOption.take (nt - i) := by
  intro entries
  induction entries with
  | nil => intro i; simp [get_task_usages_loop]
  | cons e rest ih =>
    intro i
    by_cases hi : i < nt
    · cases e with
      | some tup =>
        show (if i < nt then tup :: get_task_usages_loop nt (i + 1) rest
          else []) = _
        rw [if_pos hi, List.reduceOption_cons_of_some, ih]
        have hsucc : nt - i = (nt - (i + 1)) + 1 := by omega
        rw [hsucc, List.take_succ_cons]
      | none =>
        show (if i < nt then get_task_usages_loop nt i rest else []) = _
        rw [if_pos hi, List.reduceOption_cons_of_none, ih]
    · have h0 : nt - i = 0 := by omega
      cases e with
      | some tup =>
        show (if i < nt then tup :: get_task_usages_loop nt (i + 1) rest
          else []) = _
        rw [if_neg hi, h0, List.take_zero]
      | none =>
        show (if i < nt then get_task_usages_loop nt i rest else []) = _
        rw [if_neg hi, h0, List.take_zero]

/-- `read_cpuload` with non-shrinking counters and a nonzero total returns
the delta ratio (with the zero-delta divisor guard) and updates the
globals. -/
lemma read_cpuload_eq (pa pt a t : ℕ) (h1 : pa ≤ a) (h2 : pt ≤ t)
    (h3 : t ≠ 0) :
    read_cpuload (pa, pt) (a, t) =
      (((a - pa : ℕ) : ℚ) / ((if t - pt = 0 then 1 else t - pt : ℕ) : ℚ),
        (a, t)) := by
  have ha : ¬ (a, t).1 < (pa, pt).1 := by simp; omega
  have ht : ¬ (a, t).2 < (pa, pt).2 := by simp; omega
  have ht0 : ¬ (a, t).2 = 0 := by simpa using h3
  rw [read_cpuload, if_neg ha, if_neg ht, if_neg ht0]

/-! ## Claims -/

/-- C8 (confirmed).  The memory gauge of `read_stat_file`: for resident set
size `P` pages, page size `S` kB and total RAM `R` kB, the gauge equals
`⌊1000 * P * S / R⌋` with the page-to-kilobyte conversion and the
multiplication by 1000 performed before the single integer division; in
particular `P = 256`, `S = 4`, `R = 1000000` yields 1 permille.  The
hypothesis `1000 * (P * S) < 2 ^ 64` excludes `uint64_t` overflow, which
cannot occur for physical inputs (resident memory never exceeds total RAM,
so `P * S ≤ R`, and `R` is far below `2 ^ 54` kB). -/
theorem read_stat_rssmram_floor :
    (∀ P S R : ℕ, 1000 * (P * S) < 2 ^ 64 →
      read_stat_rssmram P S R = ⌊((1000 * P * S : ℕ) : ℚ) / ((R : ℕ) : ℚ)⌋₊) ∧
    read_stat_rssmram 256 4 1000000 = 1 := by
  constructor
  · intro P S R h
    have h1 : P * S < 2 ^ 64 := by omega
    show 1000 * (P * S % 2 ^ 64) % 2 ^ 64 / R = _
    rw [Nat.mod_eq_of_lt h1, Nat.mod_eq_of_lt h, Nat.floor_div_eq_div,
      mul_assoc]
  · rfl

/-- Witness for C8 at the spec's worked example `P = 256`, `S = 4`,
`R = 1000000`. -/
theorem read_stat_rssmram_floor_witness :
    1000 * (256 * 4) < 2 ^ 64 ∧
    read_stat_rssmram 256 4 1000000 =
      ⌊((1000 * 256 * 4 : ℕ) : ℚ) / ((1000000 : ℕ) : ℚ)⌋₊ :=
  ⟨by norm_num, read_stat_rssmram_floor.1 256 4 1000000 (by norm_num)⟩

/-- C9 (confirmed).  A snapshot produced by `get_task_usages` holds exactly
the first `nt` successfully parsed records, where `nt` is the
`est_num_tasks()` estimate (the /proc link count) used to size the array:
surplus entries are silently dropped once `i` reaches `nt`, no record is
stored at an index `≥ nt`, and the function returns normally (no error) in
every case. -/
theorem get_task_usages_capped (nt : ℕ) (entries : List (Option TaskUsage)) :
    get_task_usages nt entries = entries.reduceOption.take nt ∧
    (get_task_usages nt entries).length ≤ nt := by
  have h := get_task_usages_loop_eq nt entries 0
  rw [Nat.sub_zero] at h
  refine ⟨h, ?_⟩
  show (get_task_usages_loop nt 0 entries).length ≤ nt
  rw [h, List.length_take]
  omega

/-- C3 counterexample.  At the program's first call of `read_cpuload` the
globals `prev_cpu_active`, `prev_cpu_total` are zero-initialised; with
cumulative counters `(active, total) = (50, 100)` read from /proc/stat, the
call returns the boot-cumulative ratio 1/2, not 0 as the claim states (the
value is discarded by the initialisation call in `main`, line 1850). -/
theorem read_cpuload_first_call_counterexample :
    (read_cpuload (0, 0) (50, 100)).1 = 1 / 2 ∧
    ¬ (read_cpuload (0, 0) (50, 100)).1 = 0 := by
  have h : read_cpuload (0, 0) (50, 100) =
      (((50 - 0 : ℕ) : ℚ) / ((if 100 - 0 = 0 then 1 else 100 - 0 : ℕ) : ℚ),
        (50, 100)) :=
    read_cpuload_eq 0 0 50 100 (by norm_num) (by norm_num) (by norm_num)
  rw [h]
  norm_num

/-- C3 (corrected).  `read_cpuload` with non-shrinking counters and nonzero
total returns the ratio of the active-ticks delta to the total-ticks delta
since the previous call (guarding a zero total delta) and establishes the
new baseline; on the first call the baseline is `(0, 0)`, so the returned
value is the cumulative active/total ratio since boot — not 0.  `main`
discards that first value by calling `read_cpuload()` once at startup. -/
theorem read_cpuload_first_and_delta (pa pt a t : ℕ) (h1 : pa ≤ a)
    (h2 : pt ≤ t) (h3 : t ≠ 0) :
    read_cpuload (pa, pt) (a, t) =
      (((a - pa : ℕ) : ℚ) / ((if t - pt = 0 then 1 else t - pt : ℕ) : ℚ),
        (a, t)) ∧
    (read_cpuload (0, 0) (a, t)).1 = (a : ℚ) / (t : ℚ) := by
  refine ⟨read_cpuload_eq pa pt a t h1 h2 h3, ?_⟩
  rw [read_cpuload_eq 0 0 a t (Nat.zero_le _) (Nat.zero_le _) h3]
  simp [h3]

/-- Witness for C3 at `prev = (10, 20)`, `cur = (30, 40)`. -/
theorem read_cpuload_first_and_delta_witness :
    10 ≤ 30 ∧
    read_cpuload (10, 20) (30, 40) =
      (((30 - 10 : ℕ) : ℚ) / ((if 40 - 20 = 0 then 1 else 40 - 20 : ℕ) : ℚ),
        (30, 40)) :=
  ⟨by norm_num,
    (read_cpuload_first_and_delta 10 20 30 40 (by norm_num) (by norm_num)
      (by norm_num)).1⟩

/-- C2 (confirmed).  When cpuset discovery fails (`cmp` is `none`, after the
one-time note printed by `memory_pressure_fd`), `read_mempres` returns the
fallback value 1 for every nonzero configured threshold `val_u`, and in the
load predicate — a disjunction — the comparison of that fallback against
`val_u` never suppresses reporting: whenever any of the other three signals
exceeds its threshold, `system_is_loaded` still holds with the fallback in
the memory-pressure slot. -/
theorem read_mempres_fallback (u : ℤ) (hu : u ≠ 0) :
    read_mempres u none = 1 ∧
    ∀ lavg cpu_load mem_load val_p val_c val_m : ℚ,
      (val_p < lavg ∨ val_c < 100 * cpu_load ∨ val_m < 100 * mem_load) →
      system_is_loaded lavg cpu_load mem_load (read_mempres u none)
        val_p val_c val_m u = true := by
  constructor
  · rw [read_mempres, if_neg hu]
  · intro lavg cpu_load mem_load val_p val_c val_m h
    rw [system_is_loaded]
    rcases h with h | h | h <;> simp [h]

/-- Witness for C2 at threshold `val_u = 100` with a load average of 6
exceeding its threshold 5. -/
theorem read_mempres_fallback_witness :
    (100 : ℤ) ≠ 0 ∧ read_mempres 100 none = 1 ∧
    system_is_loaded 6 0 0 (read_mempres 100 none) 5 80 80 100 = true :=
  ⟨by norm_num, (read_mempres_fallback 100 (by norm_num)).1,
    (read_mempres_fallback 100 (by norm_num)).2 6 0 0 5 80 80
      (Or.inl (by norm_num))⟩

/-- C7 (confirmed).  The per-disk rate of `get_disks_monitored` is the
32-bit wraparound-safe counter difference divided by the elapsed seconds
clamped to a minimum of 1: when the counter wrapped once
(`cur < prev`) the delta is `cur + 2 ^ 32 - prev`, when it did not wrap the
delta is `cur - prev`, the divisor is `max 1 delta_time` (for any elapsed
time below `2 ^ 32` seconds, where the `uint32_t` cast is lossless), and the
spec's example `prev = 4294967290`, `cur = 100` yields the small delta 106,
not a huge spurious one. -/
theorem get_disks_monitored_wraparound :
    (∀ prev cur : ℕ, prev < 2 ^ 32 → cur < 2 ^ 32 → cur < prev →
      get_disks_delta_usage prev cur = cur + 2 ^ 32 - prev) ∧
    (∀ prev cur : ℕ, prev < 2 ^ 32 → cur < 2 ^ 32 → prev ≤ cur →
      get_disks_delta_usage prev cur = cur - prev) ∧
    (∀ (prev cur : ℕ) (dt : ℤ), dt < 2 ^ 32 →
      get_disks_mdsk prev cur dt =
        get_disks_delta_usage prev cur / (max 1 dt).toNat) ∧
    get_disks_delta_usage 4294967290 100 = 106 ∧
    get_disks_mdsk 4294967290 100 10 = 10 := by
  refine ⟨?_, ?_, ?_, rfl, rfl⟩
  · intro prev cur h1 h2 h3
    rw [get_disks_delta_usage]
    omega
  · intro prev cur h1 h2 h3
    rw [get_disks_delta_usage]
    omega
  · intro prev cur dt hdt
    rw [get_disks_mdsk]
    congr 1
    by_cases h : dt < 1
    · rw [if_pos h]
      omega
    · rw [if_neg h]
      omega

/-- Witness for C7 at `prev = 4294967290`, `cur = 100`, `delta_time = 3`. -/
theorem get_disks_monitored_wraparound_witness :
    (3 : ℤ) < 2 ^ 32 ∧
    get_disks_mdsk 4294967290 100 3 =
      get_disks_delta_usage 4294967290 100 / (max 1 (3 : ℤ)).toNat :=
  ⟨by norm_num,
    get_disks_monitored_wraparound.2.2.1 4294967290 100 3 (by norm_num)⟩

/-- C10 (confirmed).  When `/proc/<pid>/cmdline` opens successfully but the
read returns zero bytes (zombie or kernel task), `get_cmdline` displays the
empty string; the right-justified `<unknown>` placeholder is produced only
on the failed-open path and differs from the empty string for every valid
display width (`-L` accepts widths in `[2, 1000]`). -/
theorem get_cmdline_zero_bytes (w : ℕ) (hw : 2 ≤ w) :
    get_cmdline w (some []) = [] ∧
    get_cmdline w none = get_cmdline_unknown w ∧
    get_cmdline w (some []) ≠ get_cmdline_unknown w := by
  refine ⟨rfl, rfl, ?_⟩
  intro h
  have hlen := congrArg List.length h
  have h9 : ("<unknown>".toList).length = 9 := rfl
  simp only [get_cmdline, get_cmdline_unknown, List.length_take,
    List.length_append, List.length_replicate, List.dropLast_nil,
    List.map_nil, List.length_nil, h9] at hlen
  omega

/-- Witness for C10 at the default display width 48. -/
theorem get_cmdline_zero_bytes_witness :
    2 ≤ 48 ∧ get_cmdline 48 (some []) = [] ∧
    get_cmdline 48 (some []) ≠ get_cmdline_unknown 48 :=
  ⟨by norm_num, (get_cmdline_zero_bytes 48 (by norm_num)).1,
    (get_cmdline_zero_bytes 48 (by norm_num)).2.2⟩

/-- Natural division is the floor of the rational division of the casts. -/
lemma floor_q_div (m n : ℕ) : ⌊(m : ℚ) / (n : ℚ)⌋₊ = m / n :=
  Nat.floor_div_eq_div m n

/-- C1 counterexample.  `show_hogs` computes the CPU rate by dividing the
cumulative-millisecond delta by the configured inner-loop interval `val_t`
(it receives no timestamps at all), not by the measured wall-clock time
between the two snapshot reads.  Concrete scenario: delta 1000 ms
(9000 → 10000), `val_t = 10` s, 1 CPU, but 5 s of actual wall-clock time
between the reads (the inner loop always takes at least `val_t` plus
processing time, and the first iteration sleeps `min(val_s, val_t)`, so the
two can differ): the code yields 100 where the claimed wall-clock formula
yields `⌊1000 / 5⌋ = 200`. -/
theorem show_hogs_cpumsecs_counterexample :
    show_hogs_cpumsecs 9000 10000 10 1 = 100 ∧
    ¬ show_hogs_cpumsecs 9000 10000 10 1 =
        ⌊((10000 - 9000 : ℕ) : ℚ) / ((5 : ℕ) : ℚ)⌋₊ / 1 := by
  have h1 : show_hogs_cpumsecs 9000 10000 10 1 = 100 := by
    show ⌊(((10000 + (2 ^ 64 - 9000 % 2 ^ 64)) % 2 ^ 64 : ℕ) : ℚ) / 10⌋₊ / 1
      = 100
    have hd : (10000 + (2 ^ 64 - 9000 % 2 ^ 64)) % 2 ^ 64 = 1000 := by
      norm_num
    rw [hd, show (10 : ℚ) = ((10 : ℕ) : ℚ) by norm_num, floor_q_div]
  refine ⟨h1, ?_⟩
  rw [h1, floor_q_div]
  norm_num

/-- C1 (corrected).  The per-task rates of `show_hogs` divide the
cumulative-millisecond deltas by the configured nominal inner-loop interval
`val_t` — not by the wall-clock elapsed time between the snapshot reads —
and the CPU rate is further divided by the number of CPU cores.  (The
hypotheses state that the cumulative counters did not shrink and fit in
`uint64_t`, which holds for the monotone kernel counters.) -/
theorem show_hogs_rates_nominal (pc lc : ℕ) (t : ℚ) (n : ℕ)
    (h1 : pc ≤ lc) (h2 : lc < 2 ^ 64) :
    show_hogs_cpumsecs pc lc t n = ⌊((lc - pc : ℕ) : ℚ) / t⌋₊ / n ∧
    ∀ pd ld : ℕ, pd ≤ ld → ld < 2 ^ 64 →
      show_hogs_diskwait pd ld t = ⌊((ld - pd : ℕ) : ℚ) / t⌋₊ := by
  constructor
  · show ⌊(((lc + (2 ^ 64 - pc % 2 ^ 64)) % 2 ^ 64 : ℕ) : ℚ) / t⌋₊ / n = _
    have hd : (lc + (2 ^ 64 - pc % 2 ^ 64)) % 2 ^ 64 = lc - pc := by omega
    rw [hd]
  · intro pd ld hd1 hd2
    show ⌊(((ld + (2 ^ 64 - pd % 2 ^ 64)) % 2 ^ 64 : ℕ) : ℚ) / t⌋₊ = _
    have hd : (ld + (2 ^ 64 - pd % 2 ^ 64)) % 2 ^ 64 = ld - pd := by omega
    rw [hd]

/-- Witness for C1 at the spec's scaling example: cumulative values
9000 → 9700 over the configured `val_t = 10` seconds on 1 core give 70
permille. -/
theorem show_hogs_rates_nominal_witness :
    9000 ≤ 9700 ∧
    show_hogs_cpumsecs 9000 9700 10 1 = ⌊((9700 - 9000 : ℕ) : ℚ) / 10⌋₊ / 1 :=
  ⟨by norm_num,
    (show_hogs_rates_nominal 9000 9700 10 1 (by norm_num) (by norm_num)).1⟩

/-- The spec's ranking-determinism example: five joined tasks with CPU rates
50, 200, 10, 999, 5 (pids 1-5), none yet marked. -/
def c4_example : List JoinOnPid :=
  [⟨1, 50, 0, 0, false⟩, ⟨2, 200, 0, 0, false⟩, ⟨3, 10, 0, 0, false⟩,
    ⟨4, 999, 0, 0, false⟩, ⟨5, 5, 0, 0, false⟩]

/-- C4 (confirmed).  Each marking pass of `show_hogs` marks exactly the
tasks that are within the top `val_n` of the descending sort by the
dimension metric and whose metric meets or exceeds the dimension threshold;
and on the spec's example (CPU rates 50, 200, 10, 999, 5, `val_n = 3`,
threshold 100, CPU dimension enabled) exactly the tasks with rates 999 and
200 (pids 4 and 2) are marked, while the rate-50 task is not, even though it
is within the top 3. -/
theorem show_hogs_select_top_n :
    (∀ (metric : JoinOnPid → ℕ) (thr n : ℕ) (l : List JoinOnPid),
      (∀ j ∈ l, j.showme = false) →
      (hog_mark metric thr n l).filter (fun j => j.showme) =
        (((hog_sort metric l).take n).filter
          (fun j => decide (thr ≤ metric j))).map set_showme) ∧
    ((show_hogs_select false false true 100 100 100 3 c4_example).filter
      (fun j => j.showme)).map (fun j => j.pid) = [4, 2] ∧
    ∀ j ∈ show_hogs_select false false true 100 100 100 3 c4_example,
      j.cpumsecs = 50 → j.showme = false := by
  refine ⟨?_, by decide, by decide⟩
  intro metric thr n l h
  show (((hog_sort metric l).take n).map
      (fun j => if thr ≤ metric j then set_showme j else j)
      ++ (hog_sort metric l).drop n).filter (fun j => j.showme) = _
  have hperm := List.perm_insertionSort (fun a b => metric b ≤ metric a) l
  have hmem : ∀ j ∈ hog_sort metric l, j.showme = false := fun j hj =>
    h j (hperm.mem_iff.mp hj)
  rw [List.filter_append]
  have hdrop : ((hog_sort metric l).drop n).filter (fun j => j.showme)
      = [] := by
    rw [List.filter_eq_nil_iff]
    intro a ha
    simp [hmem a (List.mem_of_mem_drop ha)]
  rw [hdrop, List.append_nil, List.filter_map]
  have htake : ∀ j ∈ (hog_sort metric l).take n, j.showme = false :=
    fun j hj => hmem j (List.mem_of_mem_take hj)
  have hpf : ∀ a ∈ (hog_sort metric l).take n,
      ((fun j => j.showme) ∘
        (fun j => if thr ≤ metric j then set_showme j else j)) a
        = decide (thr ≤ metric a) := by
    intro a ha
    by_cases hth : thr ≤ metric a
    · simp [hth, set_showme]
    · simp [hth, htake a ha]
  rw [List.filter_congr hpf]
  apply List.map_congr_left
  intro a ha
  have hq := List.of_mem_filter ha
  rw [decide_eq_true_iff] at hq
  rw [if_pos hq]

/-- Witness for C4: the general marking characterisation applied to the
spec's example with the CPU metric, threshold 100 and `val_n = 3`. -/
theorem show_hogs_select_top_n_witness :
    (∀ j ∈ c4_example, j.showme = false) ∧
    (hog_mark (fun j => j.cpumsecs) 100 3 c4_example).filter
        (fun j => j.showme) =
      (((hog_sort (fun j => j.cpumsecs) c4_example).take 3).filter
        (fun j => decide (100 ≤ j.cpumsecs))).map set_showme :=
  ⟨by decide,
    show_hogs_select_top_n.1 (fun j => j.cpumsecs) 100 3 c4_example
      (by decide)⟩

/-! ## Join lemmas -/

/-- Pointwise-equal functions give equal `filterMap`s. -/
lemma filterMap_congr_mem {α β : Type} (l : List α) (f g : α → Option β)
    (h : ∀ a ∈ l, f a = g a) : l.filterMap f = l.filterMap g := by
  induction l with
  | nil => rfl
  | cons a as ih =>
    rw [List.filterMap_cons, List.filterMap_cons, h a (List.mem_cons_self a as),
      ih fun x hx => h x (List.mem_cons_of_mem a hx)]

/-- A `filterMap` that never drops an element preserves the length. -/
lemma filterMap_length_all_isSome {α β : Type} (l : List α) (f : α → Option β)
    (h : ∀ a ∈ l, (f a).isSome) : (l.filterMap f).length = l.length := by
  induction l with
  | nil => rfl
  | cons a as ih =>
    have ha := h a (List.mem_cons_self a as)
    cases hfa : f a with
    | none => rw [hfa] at ha; simp at ha
    | some b =>
      rw [List.filterMap_cons_some hfa, List.length_cons, List.length_cons,
        ih fun x hx => h x (List.mem_cons_of_mem a hx)]

/-- A `filterMap` whose kept value depends only on the element equals a
`filter` followed by a `map`. -/
lemma filterMap_guard {α β γ : Type} (l : List α) (f : α → Option β)
    (g : α → γ) :
    (l.filterMap fun a => (f a).map fun _ => g a) =
      (l.filter fun a => (f a).isSome).map g := by
  induction l with
  | nil => rfl
  | cons a as ih =>
    cases hfa : f a with
    | none =>
      rw [List.filterMap_cons_none (by rw [hfa]; rfl),
        List.filter_cons_of_neg (by simp [hfa]), ih]
    | some b =>
      rw [List.filterMap_cons_some (by rw [hfa]; rfl),
        List.filter_cons_of_pos (by simp [hfa]), List.map_cons, ih]

/-- Unfolding of `joinOk` at an empty latest snapshot. -/
lemma joinOk_nil (prior : List TaskUsage) : joinOk prior [] = [] := by
  cases prior <;> rfl

/-- Unfolding of `joinOk` at a nonempty latest snapshot whose current prior
suffix (after skipping smaller pids) is empty: the loop ends. -/
lemma joinOk_cons_of_dropWhile_nil (prior : List TaskUsage) (l : TaskUsage)
    (ls : List TaskUsage)
    (hd : prior.dropWhile (fun x => decide (x.pid < l.pid)) = []) :
    joinOk prior (l :: ls) = [] := by
  cases prior with
  | nil => rfl
  | cons p0 ps0 =>
    show (match (p0 :: ps0).dropWhile (fun x => decide (x.pid < l.pid)) with
      | [] => ([] : List (TaskUsage × TaskUsage))
      | p :: ps =>
        if p.pid = l.pid then (p, l) :: joinOk ps ls
        else joinOk (p :: ps) ls) = []
    rw [hd]

/-- Unfolding of `joinOk` at a nonempty latest snapshot whose current prior
suffix is nonempty: compare the two pids. -/
lemma joinOk_cons_of_dropWhile_cons (prior : List TaskUsage) (l : TaskUsage)
    (ls : List TaskUsage) (p : TaskUsage) (ps : List TaskUsage)
    (hd : prior.dropWhile (fun x => decide (x.pid < l.pid)) = p :: ps) :
    joinOk prior (l :: ls) =
      if p.pid = l.pid then (p, l) :: joinOk ps ls
      else joinOk (p :: ps) ls := by
  cases prior with
  | nil => simp at hd
  | cons p0 ps0 =>
    show (match (p0 :: ps0).dropWhile (fun x => decide (x.pid < l.pid)) with
      | [] => ([] : List (TaskUsage × TaskUsage))
      | p :: ps =>
        if p.pid = l.pid then (p, l) :: joinOk ps ls
        else joinOk (p :: ps) ls) = _
    rw [hd]

/-- Unfolding of `joinGo`: the fatal out-of-order exit. -/
lemma joinGo_cons_error (prevj : Option ℕ) (p0 : TaskUsage)
    (ps0 : List TaskUsage) (l : TaskUsage) (ls : List TaskUsage)
    (ho : out_of_order prevj l = true) :
    joinGo prevj (p0 :: ps0) (l :: ls) =
      .error "/proc pids out of order - fail" := by
  show (if out_of_order prevj l then
      Except.error "/proc pids out of order - fail"
    else
      match (p0 :: ps0).dropWhile (fun x => decide (x.pid < l.pid)) with
      | [] => Except.ok []
      | p :: ps =>
        if p.pid = l.pid then
          (joinGo (some l.pid) ps ls).map fun rest => (p, l) :: rest
        else joinGo (some l.pid) (p :: ps) ls) = _
  rw [ho, if_pos rfl]

/-- Unfolding of `joinGo` when the check passes and the prior snapshot is
exhausted after the skip. -/
lemma joinGo_cons_of_dropWhile_nil (prevj : Option ℕ) (p0 : TaskUsage)
    (ps0 : List TaskUsage) (l : TaskUsage) (ls : List TaskUsage)
    (ho : out_of_order prevj l = false)
    (hd : (p0 :: ps0).dropWhile (fun x => decide (x.pid < l.pid)) = []) :
    joinGo prevj (p0 :: ps0) (l :: ls) = .ok [] := by
  show (if out_of_order prevj l then
      Except.error "/proc pids out of order - fail"
    else
      match (p0 :: ps0).dropWhile (fun x => decide (x.pid < l.pid)) with
      | [] => Except.ok []
      | p :: ps =>
        if p.pid = l.pid then
          (joinGo (some l.pid) ps ls).map fun rest => (p, l) :: rest
        else joinGo (some l.pid) (p :: ps) ls) = _
  rw [ho, if_neg Bool.false_ne_true, hd]

/-- Unfolding of `joinGo` when the check passes and the prior snapshot still
has an entry after the skip. -/
lemma joinGo_cons_of_dropWhile_cons (prevj : Option ℕ) (p0 : TaskUsage)
    (ps0 : List TaskUsage) (l : TaskUsage) (ls : List TaskUsage)
    (p : TaskUsage) (ps : List TaskUsage)
    (ho : out_of_order prevj l = false)
    (hd : (p0 :: ps0).dropWhile (fun x => decide (x.pid < l.pid)) = p :: ps) :
    joinGo prevj (p0 :: ps0) (l :: ls) =
      if p.pid = l.pid then
        (joinGo (some l.pid) ps ls).map fun rest => (p, l) :: rest
      else joinGo (some l.pid) (p :: ps) ls := by
  show (if out_of_order prevj l then
      Except.error "/proc pids out of order - fail"
    else
      match (p0 :: ps0).dropWhile (fun x => decide (x.pid < l.pid)) with
      | [] => Except.ok []
      | p :: ps =>
        if p.pid = l.pid then
          (joinGo (some l.pid) ps ls).map fun rest => (p, l) :: rest
        else joinGo (some l.pid) (p :: ps) ls) = _
  rw [ho, if_neg Bool.false_ne_true, hd]

/-- On two strictly pid-ascending snapshots the merge-join equals the
association of each prior entry with the latest entry of the same pid, when
one exists. -/
lemma joinOk_eq_filterMap :
    ∀ (latest prior : List TaskUsage),
      prior.Pairwise (fun a b => a.pid < b.pid) →
      latest.Pairwise (fun a b => a.pid < b.pid) →
      joinOk prior latest =
        prior.filterMap fun p =>
          (latest.find? fun y => y.pid == p.pid).map fun y => (p, y) := by
  intro latest
  induction latest with
  | nil =>
    intro prior _ _
    rw [joinOk_nil]
    symm
    rw [List.filterMap_eq_nil_iff]
    intro p _
    rfl
  | cons l ls ih =>
    intro prior hp hl
    have hl2 : ls.Pairwise (fun a b => a.pid < b.pid) :=
      (List.pairwise_cons.mp hl).2
    have hlls : ∀ y ∈ ls, l.pid < y.pid := (List.pairwise_cons.mp hl).1
    have hsplit : prior.takeWhile (fun x => decide (x.pid < l.pid)) ++
        prior.dropWhile (fun x => decide (x.pid < l.pid)) = prior :=
      List.takeWhile_append_dropWhile _ prior
    have hfM : ∀ x ∈ prior.takeWhile (fun x => decide (x.pid < l.pid)),
        ((l :: ls).find? fun y => y.pid == x.pid) = none := by
      intro x hx
      have hxdec := List.mem_takeWhile_imp hx
      have hxlt : x.pid < l.pid := by simpa using hxdec
      rw [List.find?_eq_none]
      intro y hy
      rcases List.mem_cons.mp hy with rfl | hy2
      · simp only [beq_iff_eq]
        omega
      · have hly := hlls y hy2
        simp only [beq_iff_eq]
        omega
    have htwnil : (prior.takeWhile (fun x => decide (x.pid < l.pid))).filterMap
        (fun p => ((l :: ls).find? fun y => y.pid == p.pid).map
          fun y => (p, y)) = [] := by
      rw [List.filterMap_eq_nil_iff]
      intro p hp2
      rw [hfM p hp2]
      rfl
    cases hd : prior.dropWhile (fun x => decide (x.pid < l.pid)) with
    | nil =>
      rw [joinOk_cons_of_dropWhile_nil prior l ls hd]
      symm
      conv_lhs => rw [← hsplit]
      rw [hd, List.append_nil, htwnil]
    | cons p ps =>
      have hdp : (p :: ps).Pairwise (fun a b => a.pid < b.pid) := by
        rw [← hd]
        exact List.Pairwise.sublist (List.dropWhile_sublist _) hp
      have hps : ps.Pairwise (fun a b => a.pid < b.pid) :=
        (List.pairwise_cons.mp hdp).2
      have hpps : ∀ x ∈ ps, p.pid < x.pid := (List.pairwise_cons.mp hdp).1
      have hphd := List.head?_dropWhile_not
        (fun x => decide (x.pid < l.pid)) prior
      rw [hd] at hphd
      simp only [List.head?_cons] at hphd
      have hple : l.pid ≤ p.pid := by
        have := of_decide_eq_false hphd
        omega
      rw [joinOk_cons_of_dropWhile_cons prior l ls p ps hd]
      conv_rhs => rw [← hsplit]
      rw [hd, List.filterMap_append, htwnil, List.nil_append]
      by_cases heq : p.pid = l.pid
      · rw [if_pos heq]
        have hfind : ((l :: ls).find? fun y => y.pid == p.pid) = some l :=
          List.find?_cons_of_pos _ (by simp [heq])
        have hcongr : ∀ x ∈ ps,
            (fun p => (ls.find? fun y => y.pid == p.pid).map fun y => (p, y)) x
              = (fun p => ((l :: ls).find? fun y => y.pid == p.pid).map
                  fun y => (p, y)) x := by
          intro x hx
          show (ls.find? fun y => y.pid == x.pid).map (fun y => (x, y))
            = ((l :: ls).find? fun y => y.pid == x.pid).map fun y => (x, y)
          have hxgt : l.pid < x.pid := by
            have := hpps x hx
            omega
          have hne2 : ¬ ((fun y => y.pid == x.pid) l) = true := by
            simp only [beq_iff_eq]
            omega
          have hrw : ((l :: ls).find? fun y => y.pid == x.pid)
              = ls.find? fun y => y.pid == x.pid :=
            List.find?_cons_of_neg _ hne2
          rw [hrw]
        have hfp : ((l :: ls).find? fun y => y.pid == p.pid).map
            (fun y => (p, y)) = some (p, l) := by
          rw [hfind]
          rfl
        have hstep : List.filterMap
            (fun p => Option.map (fun y => (p, y))
              (List.find? (fun y => y.pid == p.pid) (l :: ls))) (p :: ps)
            = (p, l) :: List.filterMap
              (fun p => Option.map (fun y => (p, y))
                (List.find? (fun y => y.pid == p.pid) (l :: ls))) ps :=
          List.filterMap_cons_some hfp
        rw [hstep]
        rw [ih ps hps hl2, filterMap_congr_mem ps
          (fun p => (ls.find? fun y => y.pid == p.pid).map fun y => (p, y))
          (fun p => ((l :: ls).find? fun y => y.pid == p.pid).map
            fun y => (p, y)) hcongr]
      · rw [if_neg heq]
        have hcongr : ∀ x ∈ p :: ps,
            (fun p => (ls.find? fun y => y.pid == p.pid).map fun y => (p, y)) x
              = (fun p => ((l :: ls).find? fun y => y.pid == p.pid).map
                  fun y => (p, y)) x := by
          intro x hx
          show (ls.find? fun y => y.pid == x.pid).map (fun y => (x, y))
            = ((l :: ls).find? fun y => y.pid == x.pid).map fun y => (x, y)
          have hxgt : l.pid < x.pid := by
            rcases List.mem_cons.mp hx with rfl | hx2
            · omega
            · have := hpps x hx2
              omega
          have hne2 : ¬ ((fun y => y.pid == x.pid) l) = true := by
            simp only [beq_iff_eq]
            omega
          have hrw : ((l :: ls).find? fun y => y.pid == x.pid)
              = ls.find? fun y => y.pid == x.pid :=
            List.find?_cons_of_neg _ hne2
          rw [hrw]
        rw [ih (p :: ps) hdp hl2, filterMap_congr_mem (p :: ps)
          (fun p => (ls.find? fun y => y.pid == p.pid).map fun y => (p, y))
          (fun p => ((l :: ls).find? fun y => y.pid == p.pid).map
            fun y => (p, y)) hcongr]

/-- When the latest snapshot is ascending (each consecutive pid
non-decreasing) and the previously visited latest pid (if any) does not
exceed the head pid, the out-of-order check never fires and the join loop
returns the pure merge-join. -/
lemma joinGo_eq_joinOk :
    ∀ (latest prior : List TaskUsage) (prevj : Option ℕ),
      List.Chain' (fun a b : TaskUsage => a.pid ≤ b.pid) latest →
      (∀ q, prevj = some q → ∀ h ∈ latest.head?, q ≤ h.pid) →
      joinGo prevj prior latest = .ok (joinOk prior latest) := by
  intro latest
  induction latest with
  | nil =>
    intro prior prevj _ _
    cases prior <;> rfl
  | cons l ls ih =>
    intro prior prevj hch hprev
    have hoo : out_of_order prevj l = false := by
      cases prevj with
      | none => rfl
      | some q =>
        have hq : q ≤ l.pid := hprev q rfl l (by simp)
        simp only [out_of_order, decide_eq_false_iff_not]
        omega
    have hch2 : List.Chain' (fun a b : TaskUsage => a.pid ≤ b.pid) ls :=
      (List.chain'_cons'.mp hch).2
    have hhd : ∀ h ∈ ls.head?, l.pid ≤ h.pid := (List.chain'_cons'.mp hch).1
    have hprev2 : ∀ q, (some l.pid : Option ℕ) = some q →
        ∀ h ∈ ls.head?, q ≤ h.pid := by
      intro q hq h hh
      cases hq
      exact hhd h hh
    cases prior with
    | nil => rfl
    | cons p0 ps0 =>
      cases hd : (p0 :: ps0).dropWhile (fun x => decide (x.pid < l.pid)) with
      | nil =>
        rw [joinGo_cons_of_dropWhile_nil prevj p0 ps0 l ls hoo hd,
          joinOk_cons_of_dropWhile_nil (p0 :: ps0) l ls hd]
      | cons p ps =>
        rw [joinGo_cons_of_dropWhile_cons prevj p0 ps0 l ls p ps hoo hd,
          joinOk_cons_of_dropWhile_cons (p0 :: ps0) l ls p ps hd]
        by_cases heq : p.pid = l.pid
        · rw [if_pos heq, if_pos heq, ih ps (some l.pid) hch2 hprev2]
          rfl
        · rw [if_neg heq, if_neg heq, ih (p :: ps) (some l.pid) hch2 hprev2]

/-- When every latest pid is below the first prior pid, the join walk scans
the latest snapshot element by element carrying the previous pid along, so
it ends in the fatal out-of-order exit exactly when the previous-pid
condition or the ascending-chain condition on the scanned part fails. -/
lemma joinGo_scan_error (p0 : TaskUsage) (ps0 : List TaskUsage) :
    ∀ (latest : List TaskUsage) (prevj : Option ℕ),
      (∀ l ∈ latest, l.pid < p0.pid) →
      ¬ ((∀ q, prevj = some q → ∀ h ∈ latest.head?, q ≤ h.pid) ∧
          List.Chain' (fun a b : TaskUsage => a.pid ≤ b.pid) latest) →
      joinGo prevj (p0 :: ps0) latest =
        .error "/proc pids out of order - fail" := by
  intro latest
  induction latest with
  | nil =>
    intro prevj _ hbad
    refine absurd ⟨?_, List.chain'_nil⟩ hbad
    intro q _ h hh
    simp at hh
  | cons l ls ih =>
    intro prevj hlt hbad
    by_cases hoo : out_of_order prevj l = true
    · exact joinGo_cons_error prevj p0 ps0 l ls hoo
    · rw [Bool.not_eq_true] at hoo
      have hlp0 : l.pid < p0.pid := hlt l (List.mem_cons_self l ls)
      have hp0 : ¬ ((fun x => decide (x.pid < l.pid)) p0) = true := by
        simp only [decide_eq_true_eq]
        omega
      have hdw : (p0 :: ps0).dropWhile (fun x => decide (x.pid < l.pid))
          = p0 :: ps0 := List.dropWhile_cons_of_neg hp0
      have hne : ¬ p0.pid = l.pid := by omega
      rw [joinGo_cons_of_dropWhile_cons prevj p0 ps0 l ls p0 ps0 hoo hdw,
        if_neg hne]
      apply ih (some l.pid)
      · intro x hx
        exact hlt x (List.mem_cons_of_mem _ hx)
      · rintro ⟨hprev2, hch2⟩
        apply hbad
        refine ⟨?_, List.chain'_cons'.mpr ⟨fun h hh => hprev2 l.pid rfl h hh, hch2⟩⟩
        intro q hq h hh
        simp only [List.head?_cons, Option.mem_def, Option.some.injEq] at hh
        subst hh
        cases hq
        have : out_of_order (some q) l = false := hoo
        simp only [out_of_order, decide_eq_false_iff_not] at this
        omega

/-- C6 (confirmed).  On two pid-ascending snapshots with unique pids
(strictly ascending), the join of `show_hogs` completes without the fatal
exit and emits exactly one `JoinedTask` per pid present in both snapshots:
the joined pid list is the prior pid list filtered to the pids also in
latest; every joined pair references a prior record and a latest record of
the same pid (so a process present in only one snapshot contributes
nothing); disjoint pid sets give an empty join; and when every prior pid
also occurs in latest the join count equals the prior entry count. -/
theorem show_hogs_join_by_pid (prior latest : List TaskUsage)
    (hp : prior.Pairwise (fun a b => a.pid < b.pid))
    (hl : latest.Pairwise (fun a b => a.pid < b.pid)) :
    show_hogs_join prior latest = .ok (joinOk prior latest) ∧
    (joinOk prior latest).map (fun pr => pr.1.pid) =
      (prior.map fun p => p.pid).filter
        (fun q => decide (q ∈ latest.map fun y => y.pid)) ∧
    (∀ pr ∈ joinOk prior latest,
      pr.1 ∈ prior ∧ pr.2 ∈ latest ∧ pr.1.pid = pr.2.pid) ∧
    ((∀ p ∈ prior, ∀ y ∈ latest, p.pid ≠ y.pid) →
      joinOk prior latest = []) ∧
    ((∀ p ∈ prior, ∃ y ∈ latest, y.pid = p.pid) →
      (joinOk prior latest).length = prior.length) := by
  have hkey := joinOk_eq_filterMap latest prior hp hl
  refine ⟨?_, ?_, ?_, ?_, ?_⟩
  · apply joinGo_eq_joinOk latest prior none
    · exact List.Pairwise.chain'
        (List.Pairwise.imp (fun h => le_of_lt h) hl)
    · intro q hq
      exact absurd hq (by simp)
  · rw [hkey, List.map_filterMap]
    have hstep : prior.filterMap (fun p => Option.map (fun pr => pr.1.pid)
        (Option.map (fun y => (p, y))
          (latest.find? fun y => y.pid == p.pid)))
        = prior.filterMap (fun p => Option.map (fun _ => p.pid)
          (latest.find? fun y => y.pid == p.pid)) := by
      apply filterMap_congr_mem
      intro a _
      show Option.map _ (Option.map _ _) = _
      rw [Option.map_map]
      rfl
    rw [hstep, filterMap_guard prior
      (fun p => latest.find? fun y => y.pid == p.pid) (fun p => p.pid),
      List.filter_map]
    have hpt : ∀ p ∈ prior,
        ((latest.find? fun y => y.pid == p.pid).isSome)
          = ((fun q => decide (q ∈ latest.map fun y => y.pid)) ∘
              (fun p => p.pid)) p := by
      intro p _
      have hbe : ∀ (x y : Bool), (x = true ↔ y = true) → x = y := by decide
      apply hbe
      simp only [List.find?_isSome, List.mem_map, Function.comp_apply,
        decide_eq_true_eq, beq_iff_eq]
    rw [List.filter_congr hpt]
  · rw [hkey]
    intro pr hpr
    rw [List.mem_filterMap] at hpr
    obtain ⟨p, hpmem, hfp⟩ := hpr
    have hfp2 : (latest.find? fun y => y.pid == p.pid).map
        (fun y => (p, y)) = some pr := hfp
    cases hfind : latest.find? fun y => y.pid == p.pid with
    | none =>
      rw [hfind] at hfp2
      exact absurd hfp2 (by simp)
    | some y =>
      rw [hfind] at hfp2
      simp only [Option.map_some', Option.some.injEq] at hfp2
      subst hfp2
      have hymem : y ∈ latest := List.mem_of_find?_eq_some hfind
      have hypid := List.find?_some hfind
      have hypid2 : y.pid = p.pid := by simpa using hypid
      exact ⟨hpmem, hymem, hypid2.symm⟩
  · intro hdisj
    rw [hkey, List.filterMap_eq_nil_iff]
    intro p hp2
    have hnone : (latest.find? fun y => y.pid == p.pid) = none := by
      rw [List.find?_eq_none]
      intro y hy
      simp only [beq_iff_eq]
      exact fun hcon => (hdisj p hp2 y hy) hcon.symm
    show ((latest.find? fun y => y.pid == p.pid).map fun y => (p, y)) = none
    rw [hnone]
    rfl
  · intro hall
    rw [hkey]
    apply filterMap_length_all_isSome
    intro p hp2
    obtain ⟨y, hy, hyp⟩ := hall p hp2
    show ((latest.find? fun y => y.pid == p.pid).map fun y => (p, y)).isSome
      = true
    rw [Option.isSome_map', List.find?_isSome]
    exact ⟨y, hy, by simp [hyp]⟩

/-- A concrete strictly ascending prior snapshot: pids 1 and 3. -/
def c6_prior : List TaskUsage := [⟨"a", 1, 10, 0, 0⟩, ⟨"b", 3, 20, 0, 0⟩]

/-- A concrete strictly ascending latest snapshot: pids 2 and 3. -/
def c6_latest : List TaskUsage := [⟨"c", 2, 5, 0, 0⟩, ⟨"b", 3, 25, 0, 0⟩]

/-- Witness for C6 on the concrete snapshot pair (common pid: 3). -/
theorem show_hogs_join_by_pid_witness :
    c6_prior.Pairwise (fun a b => a.pid < b.pid) ∧
    c6_latest.Pairwise (fun a b => a.pid < b.pid) ∧
    show_hogs_join c6_prior c6_latest = .ok (joinOk c6_prior c6_latest) :=
  ⟨by decide, by decide,
    (show_hogs_join_by_pid c6_prior c6_latest (by decide) (by decide)).1⟩

/-- C5 counterexample prior snapshot: the single pid 1. -/
def c5_prior : List TaskUsage := [⟨"a", 1, 0, 0, 0⟩]

/-- C5 counterexample latest snapshot: pids 1, 5, 3 — the consecutive pair
(5, 3) decreases. -/
def c5_latest : List TaskUsage :=
  [⟨"b", 1, 0, 0, 0⟩, ⟨"c", 5, 0, 0, 0⟩, ⟨"d", 3, 0, 0, 0⟩]

/-- C5 counterexample.  The latest snapshot contains two consecutive records
with a decreasing pid (5 then 3), yet the join walk exhausts the prior
snapshot (after matching pid 1) before its index reaches the decreasing
pair, so `show_hogs` completes the join normally instead of terminating with
the fatal diagnostic: the out-of-order check only covers positions the walk
visits while both snapshots have entries left. -/
theorem show_hogs_join_out_of_order_missed :
    (c5_latest.map fun l => l.pid) = [1, 5, 3] ∧
    show_hogs_join c5_prior c5_latest =
      .ok [(⟨"a", 1, 0, 0, 0⟩, ⟨"b", 1, 0, 0, 0⟩)] :=
  ⟨rfl, rfl⟩

/-- C5 (corrected).  A decreasing consecutive pid pair in the latest
snapshot makes the join exit fatally with the out-of-order diagnostic
(status 9) rather than silently reordering — provided the walk reaches the
pair while prior entries remain; here, whenever every latest pid is below
the first prior pid, so that the walk scans the whole latest snapshot.
(When a snapshot is exhausted first — as in the counterexample — the
violation goes undetected.) -/
theorem show_hogs_join_out_of_order_fatal (p0 : TaskUsage)
    (ps0 pre post : List TaskUsage) (a b : TaskUsage)
    (hall : ∀ l ∈ pre ++ a :: b :: post, l.pid < p0.pid)
    (hdec : b.pid < a.pid) :
    show_hogs_join (p0 :: ps0) (pre ++ a :: b :: post) =
      .error "/proc pids out of order - fail" := by
  apply joinGo_scan_error p0 ps0 (pre ++ a :: b :: post) none hall
  rintro ⟨-, hch⟩
  have h2 := (List.chain'_append.mp hch).2.1
  rw [List.chain'_cons] at h2
  have hab : a.pid ≤ b.pid := h2.1
  omega

/-- Witness for C5 with prior pid 100 and latest pids 5, 3. -/
theorem show_hogs_join_out_of_order_fatal_witness :
    (∀ l ∈ ([⟨"a", 5, 0, 0, 0⟩, ⟨"b", 3, 0, 0, 0⟩] : List TaskUsage),
      l.pid < (⟨"x", 100, 0, 0, 0⟩ : TaskUsage).pid) ∧
    show_hogs_join [⟨"x", 100, 0, 0, 0⟩]
        ([] ++ (⟨"a", 5, 0, 0, 0⟩ : TaskUsage) ::
          (⟨"b", 3, 0, 0, 0⟩ : TaskUsage) :: []) =
      .error "/proc pids out of order - fail" :=
  ⟨by decide,
    show_hogs_join_out_of_order_fatal ⟨"x", 100, 0, 0, 0⟩ [] [] []
      ⟨"a", 5, 0, 0, 0⟩ ⟨"b", 3, 0, 0, 0⟩ (by decide) (by decide)⟩

end BatchTop
